import Mathlib

/-!
Verification of the SoundBound browser MP3 player (audio-player.js,
auth-manager.js, style customizer) against its natural-language
specification.  The JavaScript classes are shallowly embedded: each class
instance becomes a structure of the fields the claims mention, each method a
pure state-transforming function translated clause by clause from the source.
Strings are modelled as `List Char`; the cleared `audio.src = ''` is the
empty list; JavaScript numbers that the claims touch are rationals.
-/

namespace SoundBound

/-- Whitespace test for JavaScript `\s` / `trim` over the characters the app
manipulates (space, tab, newline, carriage return, vertical tab, form feed). -/
def isWsChar (c : Char) : Bool :=
  c = ' ' || c = '\t' || c = '\n' || c = '\r' || c = '\x0b' || c = '\x0c'

/-- Model of JavaScript `String.prototype.toLowerCase` (character-wise). -/
def toLowerStr (s : List Char) : List Char :=
  s.map Char.toLower

/-- Boolean test that `pat` is an initial segment of `s`. -/
def prefixOf : List Char → List Char → Bool
  | [], _ => true
  | _ :: _, [] => false
  | a :: as, b :: bs => a == b && prefixOf as bs

/-- Model of JavaScript `hay.includes(pat)`: `pat` occurs contiguously in
`hay`. -/
def containsSub : List Char → List Char → Bool
  | [], pat => prefixOf pat []
  | c :: t, pat => prefixOf pat (c :: t) || containsSub t pat

/-- Splits a string at the first occurrence of `sep`, returning the pieces
before and after it, or `none` when `sep` does not occur.  This renders
JavaScript `s.split(sep)` restricted to what the code consumes:
`split(sep)[0]` is the first component and `split(sep).slice(1).join(sep)`
is exactly the suffix after the first occurrence. -/
def splitFirst (sep : List Char) : List Char → Option (List Char × List Char)
  | [] => if prefixOf sep [] then some ([], []) else none
  | c :: cs =>
    if prefixOf sep (c :: cs) then some ([], (c :: cs).drop sep.length)
    else
      match splitFirst sep cs with
      | some (b, a) => some (c :: b, a)
      | none => none

/-- A playlist track: the display name, artist and playable source locator
fields built in `addFilesToPlaylist`; the id, duration and file handle play
no role in the claims. -/
structure Track where
  name : List Char
  artist : List Char
  url : List Char
deriving DecidableEq

/-- State of the `AudioPlayer` class (audio-player.js): the fields the claims
mention.  `src = []` models the cleared `this.audio.src = ''`; `trackTitle`
and `trackArtist` are the now-playing display texts; `duration` and
`currentTime` mirror the audio element's and are assumed finite. -/
structure PlayerState where
  playlist : List Track
  currentTrackIndex : Nat
  isPlaying : Bool
  src : List Char
  trackTitle : List Char
  trackArtist : List Char
  volume : ℚ
  audioVolume : ℚ
  isMuted : Bool
  currentTime : ℚ
  duration : ℚ
deriving DecidableEq

/-- Method `updateTrackInfo(track)`: `track.name || 'Unknown Track'` and
`track.artist || 'Unknown Artist'` (the empty string is falsy). -/
def updateTrackInfo (s : PlayerState) (name artist : List Char) : PlayerState :=
  { s with
    trackTitle := if name = [] then "Unknown Track".toList else name
    trackArtist := if artist = [] then "Unknown Artist".toList else artist }

/-- Method `play()`: `audio.play()` then `isPlaying = true` (the playback
promise is assumed to resolve; button/animation updates are view-only). -/
def play (s : PlayerState) : PlayerState :=
  { s with isPlaying := true }

/-- Method `pause()`: `audio.pause()` then `isPlaying = false`. -/
def pause (s : PlayerState) : PlayerState :=
  { s with isPlaying := false }

/-- Method `loadTrack(index)`: returns unchanged when `!this.playlist[index]`
(track objects are always truthy); otherwise sets the source and current
index, updates the track info, and calls `play()` if `isPlaying`. -/
def loadTrack (s : PlayerState) (index : Nat) : PlayerState :=
  match s.playlist[index]? with
  | none => s
  | some track =>
    let s1 := updateTrackInfo
      { s with src := track.url, currentTrackIndex := index } track.name track.artist
    if s1.isPlaying then play s1 else s1

/-- Method `previousTrack()`: early return on an empty playlist, otherwise
decrement with wrap-around to `length - 1`, then `loadTrack`. -/
def previousTrack (s : PlayerState) : PlayerState :=
  if s.playlist.length = 0 then s
  else
    let i := if 0 < s.currentTrackIndex then s.currentTrackIndex - 1
             else s.playlist.length - 1
    loadTrack { s with currentTrackIndex := i } i

/-- Method `nextTrack()`: early return on an empty playlist, otherwise
increment with wrap-around to `0`, then `loadTrack`. -/
def nextTrack (s : PlayerState) : PlayerState :=
  if s.playlist.length = 0 then s
  else
    let i := if s.currentTrackIndex < s.playlist.length - 1 then s.currentTrackIndex + 1
             else 0
    loadTrack { s with currentTrackIndex := i } i

/-- Method `setPlaylist(playlist)`: replaces the playlist and loads track 0
when the new playlist is nonempty and no source is loaded (`!this.audio.src`). -/
def setPlaylist (s : PlayerState) (p : List Track) : PlayerState :=
  let s1 := { s with playlist := p }
  if 0 < p.length ∧ s1.src = [] then loadTrack s1 0 else s1

/-- Method `addToPlaylist(tracks)`: `this.playlist.push(...tracks)`. -/
def addToPlaylist (s : PlayerState) (tracks : List Track) : PlayerState :=
  { s with playlist := s.playlist ++ tracks }

/-- Method `removeFromPlaylist(index)`: removing the current track pauses,
clears the source and resets the now-playing display; removing an earlier
track decrements the current index; then `splice(index, 1)`. -/
def removeFromPlaylist (s : PlayerState) (index : Nat) : PlayerState :=
  let s1 :=
    if index = s.currentTrackIndex then
      updateTrackInfo { pause s with src := [] }
        "No track selected".toList "Select a song to play".toList
    else if index < s.currentTrackIndex then
      { s with currentTrackIndex := s.currentTrackIndex - 1 }
    else s
  { s1 with playlist := s1.playlist.eraseIdx index }

/-- Method `getCurrentTrack()`: `this.playlist[this.currentTrackIndex] || null`
(a track object is never falsy, so this is exactly the optional lookup). -/
def getCurrentTrack (s : PlayerState) : Option Track :=
  s.playlist[s.currentTrackIndex]?

/-- Method `setVolume(event)`: the pointer fraction of the volume bar clamped
to `[0,1]`, stored in both `this.volume` and `this.audio.volume`, unmuting. -/
def setVolume (s : PlayerState) (clientX left width : ℚ) : PlayerState :=
  let percent := max 0 (min 1 ((clientX - left) / width))
  { s with volume := percent, audioVolume := percent, isMuted := false }

/-- Method `seekTo(event)`: the raw, unclamped pointer fraction of the
progress bar times the duration, assigned to `audio.currentTime` when finite.
With a finite duration the JavaScript `isFinite(newTime)` guard fails exactly
when the bar width is zero (division yielding `NaN` or an infinity), which the
model folds into the `width = 0` branch. -/
def seekTo (s : PlayerState) (clientX left width : ℚ) : PlayerState :=
  if width = 0 then s
  else { s with currentTime := ((clientX - left) / width) * s.duration }

/-- The spec's data-model invariant: the active track index is a valid index
into the playlist, or playback is stopped (not playing, no source loaded). -/
def indexInvariant (s : PlayerState) : Prop :=
  s.currentTrackIndex < s.playlist.length ∨ (s.isPlaying = false ∧ s.src = [])

instance (s : PlayerState) : Decidable (indexInvariant s) := by
  unfold indexInvariant; infer_instance

/-- State of the `PlaylistManager` fields that search filtering touches. -/
structure ManagerState where
  playlist : List Track
  filteredPlaylist : List Track
  searchTerm : List Char
deriving DecidableEq

/-- Predicate of the `filter` callback in `updateFilteredPlaylist`:
`track.name.toLowerCase().includes(term) || track.artist.toLowerCase().includes(term)`. -/
def trackMatches (term : List Char) (t : Track) : Bool :=
  containsSub (toLowerStr t.name) term || containsSub (toLowerStr t.artist) term

/-- Method `updateFilteredPlaylist()`: a fresh copy of the playlist when the
search term is empty (falsy), otherwise the filtered array. -/
def updateFilteredPlaylist (s : ManagerState) : ManagerState :=
  if s.searchTerm = [] then { s with filteredPlaylist := s.playlist }
  else { s with filteredPlaylist := s.playlist.filter (trackMatches s.searchTerm) }

/-- Method `handleSearch(searchTerm)`: lowercases the query, stores it, and
recomputes the filtered view (rendering is view-only). -/
def handleSearch (s : ManagerState) (raw : List Char) : ManagerState :=
  updateFilteredPlaylist { s with searchTerm := toLowerStr raw }

/-- Case-insensitive substring containment, stated the way the spec words it:
`needle` occurs in `hay` up to case.  Used as the specification side of the
search-filter claim. -/
def ciContains (hay needle : List Char) : Bool :=
  containsSub (toLowerStr hay) (toLowerStr needle)

/-- Specification-side filter: the subsequence of tracks whose name or artist
contains the query case-insensitively. -/
def specSearchFilter (pl : List Track) (q : List Char) : List Track :=
  pl.filter (fun t => ciContains t.name q || ciContains t.artist q)

/-- Model of `filename.replace(/\.[^/.]+$/, '')`: strips a final `.ext` whose
extension is nonempty and contains neither `.` nor `/`. -/
def stripExt (s : List Char) : List Char :=
  let r := s.reverse
  let ext := r.takeWhile (fun c => c ≠ '.' && c ≠ '/')
  match r.drop ext.length with
  | '.' :: rest => if ext.isEmpty then s else rest.reverse
  | _ => s

/-- Model of `.replace(/_/g, ' ')`. -/
def underscoresToSpaces (s : List Char) : List Char :=
  s.map (fun c => if c = '_' then ' ' else c)

/-- Model of `.replace(/\s+/g, ' ')`: every maximal run of whitespace becomes
a single space. -/
def collapseWs : List Char → List Char
  | [] => []
  | [c] => if isWsChar c then [' '] else [c]
  | c :: d :: cs =>
    if isWsChar c then
      if isWsChar d then collapseWs (d :: cs) else ' ' :: collapseWs (d :: cs)
    else c :: collapseWs (d :: cs)

/-- Model of `.trim()`: strips whitespace from both ends. -/
def trimWs (s : List Char) : List Char :=
  ((s.dropWhile isWsChar).reverse.dropWhile isWsChar).reverse

/-- The cleanup pipeline shared by both extractors:
`.replace(/_/g, ' ').replace(/\s+/g, ' ').trim()`. -/
def cleanup (s : List Char) : List Char :=
  trimWs (collapseWs (underscoresToSpaces s))

/-- The `' - '` separator of the `"Artist - Title"` filename pattern. -/
def sepDash : List Char := " - ".toList

/-- Method `extractTrackName(filename)`: drops the extension, keeps the text
after the first `' - '` when present (`split(' - ').slice(1).join(' - ')`),
cleans it up, and falls back to `'Unknown Track'` on an empty result. -/
def extractTrackName (filename : List Char) : List Char :=
  let base := stripExt filename
  let name :=
    match splitFirst sepDash base with
    | some (_, after) => after
    | none => base
  let name1 := cleanup name
  if name1 = [] then "Unknown Track".toList else name1

/-- Method `extractArtistName(filename)`: drops the extension and, when the
base contains `' - '`, cleans the text before the first separator
(`split(' - ')[0]`); otherwise `'Unknown Artist'`. -/
def extractArtistName (filename : List Char) : List Char :=
  let base := stripExt filename
  match splitFirst sepDash base with
  | some (before, _) => cleanup before
  | none => "Unknown Artist".toList

/-- A preferences record (style customizer); `fontSize` is the `parseInt` of
the slider value and `animationSpeed` the `parseFloat`, both exact here. -/
structure Prefs where
  theme : List Char
  playerSize : List Char
  background : List Char
  fontSize : Nat
  animationSpeed : ℚ
deriving DecidableEq

/-- The JSON image of a preferences record in local storage: each field
either present or absent, as the object spread sees it. -/
structure StoredPrefs where
  theme : Option (List Char)
  playerSize : Option (List Char)
  background : Option (List Char)
  fontSize : Option Nat
  animationSpeed : Option ℚ
deriving DecidableEq

/-- Method `getDefaultPreferences()`. -/
def getDefaultPreferences : Prefs :=
  { theme := "default".toList
    playerSize := "normal".toList
    background := "solid".toList
    fontSize := 16
    animationSpeed := 1 }

/-- `JSON.stringify` of a full preferences record: every field is present. -/
def stringifyPrefs (p : Prefs) : StoredPrefs :=
  { theme := some p.theme
    playerSize := some p.playerSize
    background := some p.background
    fontSize := some p.fontSize
    animationSpeed := some p.animationSpeed }

/-- The spread `{ ...getDefaultPreferences(), ...parsed }`: each field of the
parsed object overrides the default when present. -/
def mergeWithDefaults (sp : StoredPrefs) : Prefs :=
  { theme := sp.theme.getD getDefaultPreferences.theme
    playerSize := sp.playerSize.getD getDefaultPreferences.playerSize
    background := sp.background.getD getDefaultPreferences.background
    fontSize := sp.fontSize.getD getDefaultPreferences.fontSize
    animationSpeed := sp.animationSpeed.getD getDefaultPreferences.animationSpeed }

/-- State of the `StyleCustomizer` together with the one local-storage slot
(`'soundbound-preferences'`) it reads and writes. -/
structure CustomizerState where
  currentPreferences : Prefs
  localStorageSlot : Option StoredPrefs
deriving DecidableEq

/-- Method `saveToLocalStorage()`:
`localStorage.setItem('soundbound-preferences', JSON.stringify(this.currentPreferences))`. -/
def saveToLocalStorage (s : CustomizerState) : CustomizerState :=
  { s with localStorageSlot := some (stringifyPrefs s.currentPreferences) }

/-- Method `loadSavedPreferences()` with no authenticated user (the Firebase
branch is not taken): when the slot holds a value, the current preferences
become the defaults overridden by the parsed value; otherwise nothing
changes.  Applying the preferences to the document is view-only. -/
def loadSavedPreferences (s : CustomizerState) : CustomizerState :=
  match s.localStorageSlot with
  | some sp => { s with currentPreferences := mergeWithDefaults sp }
  | none => s

/-- Method `resetToDefault()`: replaces the current preferences with the
compiled-in defaults (modal/DOM updates are view-only). -/
def resetToDefault (s : CustomizerState) : CustomizerState :=
  { s with currentPreferences := getDefaultPreferences }

/-- Character class `[^\s@]` of the email regular expression. -/
def isEmailAtom (c : Char) : Bool :=
  !(isWsChar c) && c != '@'

/-- Model of `validateEmail`, the test of `/^[^\s@]+@[^\s@]+\.[^\s@]+$/`:
a nonempty run of atoms, one `@`, then a remainder of atoms containing a dot
that is neither its first nor its last character (atoms admit further dots). -/
def validateEmail (s : List Char) : Bool :=
  match splitFirst ['@'] s with
  | none => false
  | some (lpart, rest) =>
    !lpart.isEmpty && lpart.all isEmailAtom && rest.all isEmailAtom &&
    (match rest with
     | [] => false
     | _ :: t => containsSub t.dropLast ['.'])

/-- Which call, if any, a handler makes on the external auth provider. -/
inductive ProviderCall where
  | noCall
  | callSignIn
  | callSignUp
deriving DecidableEq

/-- State of the `AuthManager` fields the validation claims touch: the
current-user reference and the emitted transient notifications. -/
structure AuthState where
  currentUser : Option (List Char)
  toasts : List (List Char)
deriving DecidableEq

/-- Method `handleLogin()` up to the provider call: trims the email, checks
the email shape, then only that the password is nonempty (falsy check); a
failed check appends one toast and returns without calling the provider. -/
def handleLogin (s : AuthState) (emailRaw password : List Char) :
    AuthState × ProviderCall :=
  let email := trimWs emailRaw
  if !(validateEmail email) then
    ({ s with toasts := s.toasts ++ ["Please enter a valid email address".toList] },
     ProviderCall.noCall)
  else if password = [] then
    ({ s with toasts := s.toasts ++ ["Please enter your password".toList] },
     ProviderCall.noCall)
  else (s, ProviderCall.callSignIn)

/-- Method `handleSignup()` up to the provider call: trims the email, checks
the email shape, then `password.length < 6`; a failed check appends one toast
and returns without calling the provider. -/
def handleSignup (s : AuthState) (emailRaw password : List Char) :
    AuthState × ProviderCall :=
  let email := trimWs emailRaw
  if !(validateEmail email) then
    ({ s with toasts := s.toasts ++ ["Please enter a valid email address".toList] },
     ProviderCall.noCall)
  else if password.length < 6 then
    ({ s with toasts := s.toasts ++ ["Password must be at least 6 characters long".toList] },
     ProviderCall.noCall)
  else (s, ProviderCall.callSignUp)

/-- A concrete player state used by the counterexamples and witnesses. -/
def samplePlayer (pl : List Track) (idx : Nat) (playing : Bool) (src : List Char) :
    PlayerState :=
  { playlist := pl, currentTrackIndex := idx, isPlaying := playing, src := src
    trackTitle := [], trackArtist := [], volume := 7/10, audioVolume := 7/10
    isMuted := false, currentTime := 0, duration := 0 }

/-- Concrete tracks for counterexamples and witnesses. -/
def trackA : Track := ⟨"A".toList, "artA".toList, "urlA".toList⟩

/-- Second concrete track. -/
def trackB : Track := ⟨"B".toList, "artB".toList, "urlB".toList⟩

/-- Third concrete track. -/
def trackC : Track := ⟨"C".toList, "artC".toList, "urlC".toList⟩

/-- Helper: `loadTrack` is the identity when the index holds no track. -/
theorem loadTrack_of_none (s : PlayerState) (i : Nat) (h : s.playlist[i]? = none) :
    loadTrack s i = s := by
  simp [loadTrack, h]

/-- Helper: `loadTrack` on a present track sets source, index and display and
changes nothing else (in particular `isPlaying` is preserved). -/
theorem loadTrack_of_some (s : PlayerState) (i : Nat) (t : Track)
    (h : s.playlist[i]? = some t) :
    loadTrack s i =
      { s with src := t.url, currentTrackIndex := i
               trackTitle := if t.name = [] then "Unknown Track".toList else t.name
               trackArtist := if t.artist = [] then "Unknown Artist".toList else t.artist } := by
  cases s with
  | mk pl idx playing src title artist v av m ct d =>
    simp only [loadTrack, updateTrackInfo, play] at *
    rw [h]
    cases playing <;> simp

/-- Helper: the current index after a successful `loadTrack` is the requested
one. -/
theorem loadTrack_currentTrackIndex (s : PlayerState) (i : Nat)
    (h : i < s.playlist.length) :
    (loadTrack s i).currentTrackIndex = i := by
  rw [loadTrack_of_some s i (s.playlist.get ⟨i, h⟩) (by simp [List.getElem?_eq_getElem h])]

/-- C1: on a nonempty playlist with an in-range current index, `nextTrack`
advances to `index + 1` when `index < N - 1` and wraps to `0` at the last
track; `previousTrack` moves to `index - 1` when `index > 0` and wraps to
`N - 1` at the first; both results stay inside `[0, N-1]`; and on a playlist
`[a, b, c]` starting at index `0`, two `nextTrack` calls reach index `2` and
a third wraps back to `0`. -/
theorem c1_navigation_wraps (s : PlayerState)
    (hN : 0 < s.playlist.length) (hi : s.currentTrackIndex < s.playlist.length) :
    ((nextTrack s).currentTrackIndex =
      if s.currentTrackIndex < s.playlist.length - 1 then s.currentTrackIndex + 1 else 0) ∧
    ((previousTrack s).currentTrackIndex =
      if 0 < s.currentTrackIndex then s.currentTrackIndex - 1 else s.playlist.length - 1) ∧
    (nextTrack s).currentTrackIndex < s.playlist.length ∧
    (previousTrack s).currentTrackIndex < s.playlist.length ∧
    (∀ a b c : Track,
      (nextTrack (nextTrack (samplePlayer [a, b, c] 0 false []))).currentTrackIndex = 2 ∧
      (nextTrack (nextTrack (nextTrack (samplePlayer [a, b, c] 0 false [])))).currentTrackIndex
        = 0) := by
  have h0 : ¬ s.playlist.length = 0 := by omega
  have hnext : (nextTrack s).currentTrackIndex =
      if s.currentTrackIndex < s.playlist.length - 1 then s.currentTrackIndex + 1 else 0 := by
    unfold nextTrack
    rw [if_neg h0]
    by_cases hc : s.currentTrackIndex < s.playlist.length - 1
    · rw [if_pos hc]
      exact loadTrack_currentTrackIndex _ _ (by simp; omega)
    · rw [if_neg hc]
      exact loadTrack_currentTrackIndex _ _ (by simp; omega)
  have hprev : (previousTrack s).currentTrackIndex =
      if 0 < s.currentTrackIndex then s.currentTrackIndex - 1 else s.playlist.length - 1 := by
    unfold previousTrack
    rw [if_neg h0]
    by_cases hc : 0 < s.currentTrackIndex
    · rw [if_pos hc]
      exact loadTrack_currentTrackIndex _ _ (by simp; omega)
    · rw [if_neg hc]
      exact loadTrack_currentTrackIndex _ _ (by simp; omega)
  refine ⟨hnext, hprev, ?_, ?_, ?_⟩
  · rw [hnext]; split <;> omega
  · rw [hprev]; split <;> omega
  · intro a b c
    constructor <;>
      simp [nextTrack, loadTrack, samplePlayer, updateTrackInfo, play]

/-- Witness for C1: the `[A, B, C]` scenario of the spec, obtained by applying
`c1_navigation_wraps` to a concrete state. -/
theorem c1_witness :
    (nextTrack (nextTrack (samplePlayer [trackA, trackB, trackC] 0 false
      []))).currentTrackIndex = 2 ∧
    (nextTrack (nextTrack (nextTrack (samplePlayer [trackA, trackB, trackC] 0 false
      [])))).currentTrackIndex = 0 :=
  (c1_navigation_wraps (samplePlayer [trackA, trackB, trackC] 0 false [])
    (by decide) (by decide)).2.2.2.2 trackA trackB trackC

/-- C2: for a valid removal index, `removeFromPlaylist` removes exactly the
addressed track (`splice(index, 1)` is `eraseIdx`, shrinking the playlist by
one); removing the current track stops playback, clears the source and sets
the no-track display; removing an earlier track decrements the current index
by one; removing a later track leaves it unchanged. -/
theorem c2_remove_track (s : PlayerState) (i : Nat) (h : i < s.playlist.length) :
    (removeFromPlaylist s i).playlist = s.playlist.eraseIdx i ∧
    (removeFromPlaylist s i).playlist.length + 1 = s.playlist.length ∧
    (i = s.currentTrackIndex →
      (removeFromPlaylist s i).isPlaying = false ∧
      (removeFromPlaylist s i).src = [] ∧
      (removeFromPlaylist s i).trackTitle = "No track selected".toList ∧
      (removeFromPlaylist s i).trackArtist = "Select a song to play".toList ∧
      (removeFromPlaylist s i).currentTrackIndex = s.currentTrackIndex) ∧
    (i < s.currentTrackIndex →
      (removeFromPlaylist s i).currentTrackIndex = s.currentTrackIndex - 1 ∧
      (removeFromPlaylist s i).isPlaying = s.isPlaying ∧
      (removeFromPlaylist s i).src = s.src) ∧
    (s.currentTrackIndex < i →
      (removeFromPlaylist s i).currentTrackIndex = s.currentTrackIndex ∧
      (removeFromPlaylist s i).isPlaying = s.isPlaying ∧
      (removeFromPlaylist s i).src = s.src) := by
  have hpl : (removeFromPlaylist s i).playlist = s.playlist.eraseIdx i := by
    unfold removeFromPlaylist updateTrackInfo pause
    split <;> simp
    split <;> simp
  refine ⟨hpl, ?_, ?_, ?_, ?_⟩
  · rw [hpl]
    exact List.length_eraseIdx_add_one h
  · intro he
    unfold removeFromPlaylist updateTrackInfo pause
    rw [if_pos he]
    simp
  · intro hlt
    have hne : ¬ i = s.currentTrackIndex := by omega
    unfold removeFromPlaylist updateTrackInfo pause
    rw [if_neg hne, if_pos hlt]
    exact ⟨rfl, rfl, rfl⟩
  · intro hgt
    have hne : ¬ i = s.currentTrackIndex := by omega
    have hnlt : ¬ i < s.currentTrackIndex := by omega
    unfold removeFromPlaylist updateTrackInfo pause
    rw [if_neg hne, if_neg hnlt]
    exact ⟨rfl, rfl, rfl⟩

/-- Witness for C2: removing the playing middle track of `[A, B, C]` leaves
`[A, C]`, stops playback and clears the source; obtained from
`c2_remove_track` at a concrete state. -/
theorem c2_witness :
    (removeFromPlaylist (samplePlayer [trackA, trackB, trackC] 1 true "urlB".toList)
      1).playlist = [trackA, trackC] ∧
    (removeFromPlaylist (samplePlayer [trackA, trackB, trackC] 1 true "urlB".toList)
      1).isPlaying = false ∧
    (removeFromPlaylist (samplePlayer [trackA, trackB, trackC] 1 true "urlB".toList)
      1).src = [] :=
  have h := c2_remove_track (samplePlayer [trackA, trackB, trackC] 1 true "urlB".toList)
    1 (by decide)
  ⟨h.1.trans (by decide), (h.2.2.1 rfl).1, (h.2.2.1 rfl).2.1⟩

/-- C10: `loadTrack` at an index holding no track (out of range or empty
playlist) changes nothing at all, and `getCurrentTrack` is `none` exactly
when the current index is out of range of the playlist. -/
theorem c10_loadTrack_noop (s : PlayerState) (i : Nat) :
    (s.playlist[i]? = none → loadTrack s i = s) ∧
    (getCurrentTrack s = none ↔ s.playlist.length ≤ s.currentTrackIndex) := by
  refine ⟨loadTrack_of_none s i, ?_⟩
  simp [getCurrentTrack, List.getElem?_eq_none_iff]

/-- Witness for C10: `loadTrack 5` on a one-track playlist is the identity,
and `getCurrentTrack` at an out-of-range index is `none`; obtained from
`c10_loadTrack_noop` at concrete states. -/
theorem c10_witness :
    loadTrack (samplePlayer [trackA] 0 false []) 5 = samplePlayer [trackA] 0 false [] ∧
    (getCurrentTrack (samplePlayer [trackA] 5 false []) = none ↔
      (samplePlayer [trackA] 5 false []).playlist.length ≤
        (samplePlayer [trackA] 5 false []).currentTrackIndex) :=
  ⟨(c10_loadTrack_noop (samplePlayer [trackA] 0 false []) 5).1 (by decide),
   (c10_loadTrack_noop (samplePlayer [trackA] 5 false []) 5).2⟩

/-- Helper: a `loadTrack` at a valid index establishes the valid-index
disjunct of the invariant outright. -/
theorem inv_loadTrack_of_lt (s : PlayerState) (i : Nat) (h : i < s.playlist.length) :
    indexInvariant (loadTrack s i) := by
  rw [loadTrack_of_some s i (s.playlist.get ⟨i, h⟩) (by simp [List.getElem?_eq_getElem h])]
  exact Or.inl h

/-- Helper: `loadTrack` preserves the index invariant. -/
theorem inv_loadTrack (s : PlayerState) (i : Nat) (hs : indexInvariant s) :
    indexInvariant (loadTrack s i) := by
  by_cases h : i < s.playlist.length
  · exact inv_loadTrack_of_lt s i h
  · rw [loadTrack_of_none s i (by simp [List.getElem?_eq_none_iff]; omega)]
    exact hs

/-- Helper: `nextTrack` preserves the index invariant. -/
theorem inv_nextTrack (s : PlayerState) (hs : indexInvariant s) :
    indexInvariant (nextTrack s) := by
  unfold nextTrack
  split
  · exact hs
  · apply inv_loadTrack
    rcases hs with hlt | hstop
    · exact Or.inl (by split <;> simp <;> omega)
    · exact Or.inr hstop

/-- Helper: `previousTrack` preserves the index invariant. -/
theorem inv_previousTrack (s : PlayerState) (hs : indexInvariant s) :
    indexInvariant (previousTrack s) := by
  unfold previousTrack
  split
  · exact hs
  · apply inv_loadTrack
    rcases hs with hlt | hstop
    · exact Or.inl (by split <;> simp <;> omega)
    · exact Or.inr hstop

/-- Helper: `addToPlaylist` preserves the index invariant. -/
theorem inv_addToPlaylist (s : PlayerState) (ts : List Track) (hs : indexInvariant s) :
    indexInvariant (addToPlaylist s ts) := by
  rcases hs with hlt | hstop
  · exact Or.inl (by simp [addToPlaylist]; omega)
  · exact Or.inr hstop

/-- Helper: `removeFromPlaylist` preserves the index invariant for every
index, valid or not. -/
theorem inv_removeFromPlaylist (s : PlayerState) (i : Nat) (hs : indexInvariant s) :
    indexInvariant (removeFromPlaylist s i) := by
  unfold removeFromPlaylist updateTrackInfo pause indexInvariant
  by_cases he : i = s.currentTrackIndex
  · rw [if_pos he]
    exact Or.inr ⟨rfl, rfl⟩
  · rw [if_neg he]
    by_cases hlt : i < s.currentTrackIndex
    · rw [if_pos hlt]
      rcases hs with hv | hstop
      · refine Or.inl ?_
        simp only [List.length_eraseIdx]
        have : i < s.playlist.length := by omega
        rw [if_pos this]
        omega
      · exact Or.inr hstop
    · rw [if_neg hlt]
      rcases hs with hv | hstop
      · refine Or.inl ?_
        simp only [List.length_eraseIdx]
        split <;> omega
      · exact Or.inr hstop

/-- Helper: `setPlaylist` preserves the index invariant provided the current
index stays valid in the new playlist, or no source is loaded and the new
playlist is nonempty (track 0 is then auto-loaded), or playback is fully
stopped. -/
theorem inv_setPlaylist (s : PlayerState) (p : List Track)
    (hside : s.currentTrackIndex < p.length ∨ (0 < p.length ∧ s.src = []) ∨
      (s.isPlaying = false ∧ s.src = [])) :
    indexInvariant (setPlaylist s p) := by
  unfold setPlaylist
  by_cases hc : 0 < p.length ∧ s.src = []
  · rw [if_pos hc]
    exact inv_loadTrack_of_lt _ 0 (by simpa using hc.1)
  · rw [if_neg hc]
    rcases hside with hv | hps | hstop
    · exact Or.inl hv
    · exact absurd hps hc
    · exact Or.inr hstop

/-- Counterexample for C4: the state playing track `C` of `[A, B, C]` (index
2, source loaded) satisfies the invariant, yet `setPlaylist []` — exactly
what `clearPlaylist` invokes — leaves index 2, `isPlaying = true` and the old
source in place, violating it. -/
theorem c4_counterexample :
    indexInvariant (samplePlayer [trackA, trackB, trackC] 2 true "urlC".toList) ∧
    ¬ indexInvariant
      (setPlaylist (samplePlayer [trackA, trackB, trackC] 2 true "urlC".toList) []) := by
  decide

/-- C4 amended: the index invariant is preserved by `addToPlaylist`,
`removeFromPlaylist`, `nextTrack`, `previousTrack` and `loadTrack`
unconditionally, and by `setPlaylist` exactly under the extra proviso that
the current index remains valid in the new playlist, or no source is loaded
and the new playlist is nonempty, or playback is fully stopped; the original
claim fails for a bare `setPlaylist` (see the counterexample). -/
theorem c4_amended_invariant (s : PlayerState) (ts p : List Track) (i j : Nat)
    (hs : indexInvariant s) :
    indexInvariant (addToPlaylist s ts) ∧
    indexInvariant (removeFromPlaylist s i) ∧
    indexInvariant (nextTrack s) ∧
    indexInvariant (previousTrack s) ∧
    indexInvariant (loadTrack s j) ∧
    ((s.currentTrackIndex < p.length ∨ (0 < p.length ∧ s.src = []) ∨
      (s.isPlaying = false ∧ s.src = [])) → indexInvariant (setPlaylist s p)) :=
  ⟨inv_addToPlaylist s ts hs, inv_removeFromPlaylist s i hs, inv_nextTrack s hs,
   inv_previousTrack s hs, inv_loadTrack s j hs, inv_setPlaylist s p⟩

/-- Witness for C4 amended: a concrete playing state at index 0 of `[A, B]`;
all six operations preserve the invariant, `setPlaylist [C]` under the
valid-index proviso. -/
theorem c4_witness :
    indexInvariant (addToPlaylist (samplePlayer [trackA, trackB] 0 true "urlA".toList)
      [trackC]) ∧
    indexInvariant (removeFromPlaylist (samplePlayer [trackA, trackB] 0 true "urlA".toList)
      1) ∧
    indexInvariant (nextTrack (samplePlayer [trackA, trackB] 0 true "urlA".toList)) ∧
    indexInvariant (previousTrack (samplePlayer [trackA, trackB] 0 true "urlA".toList)) ∧
    indexInvariant (loadTrack (samplePlayer [trackA, trackB] 0 true "urlA".toList) 1) ∧
    indexInvariant (setPlaylist (samplePlayer [trackA, trackB] 0 true "urlA".toList)
      [trackC]) :=
  have h := c4_amended_invariant (samplePlayer [trackA, trackB] 0 true "urlA".toList)
    [trackC] [trackC] 1 1 (by decide)
  ⟨h.1, h.2.1, h.2.2.1, h.2.2.2.1, h.2.2.2.2.1, h.2.2.2.2.2 (by decide)⟩

/-- Counterexample for C3: with the progress bar at `[0, 100]` and duration
`10`, a pointer at `clientX = -100` makes `seekTo` assign `-10` to the
playback position — `seekTo` performs no clamping, so the resulting position
does not lie in `[0, duration]`. -/
theorem c3_counterexample :
    (seekTo { samplePlayer [trackA] 0 false "urlA".toList with duration := 10 }
      (-100) 0 100).currentTime = -10 ∧
    ¬ 0 ≤ (seekTo { samplePlayer [trackA] 0 false "urlA".toList with duration := 10 }
      (-100) 0 100).currentTime := by
  constructor <;> norm_num [seekTo]

/-- C3 amended: `setVolume` computes the pointer fraction of the volume bar
clamped to `[0,1]` and stores it as both the player volume and the audio
element volume, but `seekTo` assigns the unclamped fraction times the
duration, which lies in `[0, duration]` only when the pointer is inside the
bar bounds (the original claim's clamping assertion for `seekTo` is false,
see the counterexample). -/
theorem c3_amended_volume_clamped (s : PlayerState) (x left width : ℚ)
    (hw : 0 < width) :
    ((setVolume s x left width).volume = max 0 (min 1 ((x - left) / width)) ∧
     0 ≤ (setVolume s x left width).volume ∧
     (setVolume s x left width).volume ≤ 1 ∧
     (setVolume s x left width).audioVolume = (setVolume s x left width).volume) ∧
    ((seekTo s x left width).currentTime = ((x - left) / width) * s.duration ∧
     (0 ≤ x - left → x - left ≤ width → 0 ≤ s.duration →
       0 ≤ (seekTo s x left width).currentTime ∧
       (seekTo s x left width).currentTime ≤ s.duration)) := by
  have hw0 : ¬ width = 0 := ne_of_gt hw
  have hseek : (seekTo s x left width).currentTime = ((x - left) / width) * s.duration := by
    unfold seekTo
    rw [if_neg hw0]
  refine ⟨⟨rfl, le_max_left 0 _, max_le (by norm_num) (min_le_left 1 _), rfl⟩,
    hseek, ?_⟩
  intro h1 h2 hd
  have hp0 : 0 ≤ (x - left) / width := div_nonneg h1 (le_of_lt hw)
  have hp1 : (x - left) / width ≤ 1 := (div_le_one hw).mpr h2
  rw [hseek]
  exact ⟨mul_nonneg hp0 hd, mul_le_of_le_one_left hd hp1⟩

/-- Witness for C3 amended: the volume bar at `[0, 100]` with the pointer at
`150` and the progress bar likewise, obtained from
`c3_amended_volume_clamped` at concrete values. -/
theorem c3_witness :
    (setVolume (samplePlayer [trackA] 0 false "urlA".toList) 150 0 100).volume
      = max 0 (min 1 ((150 - 0) / 100)) ∧
    0 ≤ (setVolume (samplePlayer [trackA] 0 false "urlA".toList) 150 0 100).volume ∧
    (setVolume (samplePlayer [trackA] 0 false "urlA".toList) 150 0 100).volume ≤ 1 ∧
    (seekTo (samplePlayer [trackA] 0 false "urlA".toList) 150 0 100).currentTime
      = ((150 - 0) / 100) * (samplePlayer [trackA] 0 false "urlA".toList).duration :=
  have h := c3_amended_volume_clamped (samplePlayer [trackA] 0 false "urlA".toList)
    150 0 100 (by norm_num)
  ⟨h.1.1, h.1.2.1, h.1.2.2.1, h.2.1⟩

/-- Helper: every string contains the empty string (JavaScript
`s.includes('')` is true). -/
theorem containsSub_nil (hay : List Char) : containsSub hay [] = true := by
  cases hay <;> simp [containsSub, prefixOf]

/-- C5: the filtered view computed by `handleSearch` equals the subsequence
of playlist tracks whose name or artist contains the query as a
case-insensitive substring, is a sublist of the playlist (same relative
order), leaves the underlying playlist untouched, and is the whole playlist
for the empty query. -/
theorem c5_search_filter (s : ManagerState) (q : List Char) :
    (handleSearch s q).filteredPlaylist = specSearchFilter s.playlist q ∧
    (handleSearch s q).playlist = s.playlist ∧
    List.Sublist (handleSearch s q).filteredPlaylist s.playlist ∧
    (q = [] → (handleSearch s q).filteredPlaylist = s.playlist) := by
  by_cases hq : q = []
  · subst hq
    have hfil : (handleSearch s []).filteredPlaylist = s.playlist := by
      simp [handleSearch, updateFilteredPlaylist, toLowerStr]
    have hspec : specSearchFilter s.playlist [] = s.playlist := by
      apply List.filter_eq_self.mpr
      intro a _
      simp [ciContains, toLowerStr, containsSub_nil]
    refine ⟨hfil.trans hspec.symm, rfl, ?_, fun _ => hfil⟩
    rw [hfil]
  · have hq2 : ¬ toLowerStr q = [] := by
      simpa [toLowerStr] using hq
    have hfil : (handleSearch s q).filteredPlaylist =
        s.playlist.filter (trackMatches (toLowerStr q)) := by
      simp [handleSearch, updateFilteredPlaylist, hq2]
    refine ⟨?_, by simp [handleSearch, updateFilteredPlaylist, hq2], ?_,
      fun h => absurd h hq⟩
    · rw [hfil]; rfl
    · rw [hfil]; exact List.filter_sublist s.playlist

/-- Witness for C5: searching `"ART"` in a two-track playlist keeps exactly
the matching track, in order, without touching the playlist; obtained from
`c5_search_filter` at concrete values. -/
theorem c5_witness :
    (handleSearch ⟨[trackA, trackB], [], []⟩ "ARTB".toList).filteredPlaylist
      = specSearchFilter [trackA, trackB] "ARTB".toList ∧
    (handleSearch ⟨[trackA, trackB], [], []⟩ "ARTB".toList).playlist
      = [trackA, trackB] ∧
    specSearchFilter [trackA, trackB] "ARTB".toList = [trackB] ∧
    (handleSearch ⟨[trackA, trackB], [], []⟩ []).filteredPlaylist = [trackA, trackB] :=
  have h := c5_search_filter ⟨[trackA, trackB], [], []⟩ "ARTB".toList
  have h0 := c5_search_filter ⟨[trackA, trackB], [], []⟩ []
  ⟨h.1, h.2.1, by decide, h0.2.2.2 rfl⟩

/-- C6: saving a preferences record to local storage and loading it back with
no authenticated user restores every field exactly. -/
theorem c6_prefs_roundtrip (p : Prefs) (slot : Option StoredPrefs) :
    (loadSavedPreferences (saveToLocalStorage
      { currentPreferences := p, localStorageSlot := slot })).currentPreferences = p ∧
    (loadSavedPreferences (saveToLocalStorage
      { currentPreferences := p, localStorageSlot := slot })).currentPreferences.theme
      = p.theme ∧
    (loadSavedPreferences (saveToLocalStorage
      { currentPreferences := p, localStorageSlot := slot })).currentPreferences.playerSize
      = p.playerSize ∧
    (loadSavedPreferences (saveToLocalStorage
      { currentPreferences := p, localStorageSlot := slot })).currentPreferences.background
      = p.background ∧
    (loadSavedPreferences (saveToLocalStorage
      { currentPreferences := p, localStorageSlot := slot })).currentPreferences.fontSize
      = p.fontSize ∧
    (loadSavedPreferences (saveToLocalStorage
      { currentPreferences := p, localStorageSlot := slot })).currentPreferences.animationSpeed
      = p.animationSpeed := by
  have h : (loadSavedPreferences (saveToLocalStorage
      { currentPreferences := p, localStorageSlot := slot })).currentPreferences = p := by
    cases p
    rfl
  exact ⟨h, by rw [h], by rw [h], by rw [h], by rw [h], by rw [h]⟩

/-- C7: after `resetToDefault` the current preferences equal exactly the
compiled-in defaults, whatever the prior state. -/
theorem c7_reset_defaults (s : CustomizerState) :
    (resetToDefault s).currentPreferences =
      { theme := "default".toList, playerSize := "normal".toList,
        background := "solid".toList, fontSize := 16, animationSpeed := 1 } :=
  rfl

/-- Counterexample for C8: a sign-in with a well-formed email and the
3-character password `"abc"` calls the external auth provider — `handleLogin`
only rejects an empty password and never checks the 6-character minimum the
claim asserts for both handlers. -/
theorem c8_counterexample :
    validateEmail (trimWs "a@b.co".toList) = true ∧
    "abc".toList.length < 6 ∧
    (handleLogin ⟨none, []⟩ "a@b.co".toList "abc".toList).2 = ProviderCall.callSignIn := by
  refine ⟨by decide, by decide, by decide⟩

/-- C8 amended: both handlers validate the email shape client-side; the
sign-up handler additionally requires a password of length at least 6, while
the sign-in handler requires only a nonempty password.  Whenever a check
fails the handler returns before the provider call with exactly one transient
notification appended and the user state unchanged; when all checks pass it
reaches the provider call with no state change. -/
theorem c8_amended_validation (s : AuthState) (e p : List Char) :
    ((handleLogin s e p).2 = ProviderCall.callSignIn ↔
      validateEmail (trimWs e) = true ∧ p ≠ []) ∧
    ((handleSignup s e p).2 = ProviderCall.callSignUp ↔
      validateEmail (trimWs e) = true ∧ 6 ≤ p.length) ∧
    ((handleLogin s e p).2 = ProviderCall.noCall →
      (handleLogin s e p).1.currentUser = s.currentUser ∧
      ∃ m, (handleLogin s e p).1.toasts = s.toasts ++ [m]) ∧
    ((handleSignup s e p).2 = ProviderCall.noCall →
      (handleSignup s e p).1.currentUser = s.currentUser ∧
      ∃ m, (handleSignup s e p).1.toasts = s.toasts ++ [m]) ∧
    ((handleLogin s e p).2 = ProviderCall.callSignIn → (handleLogin s e p).1 = s) ∧
    ((handleSignup s e p).2 = ProviderCall.callSignUp → (handleSignup s e p).1 = s) := by
  by_cases hv : validateEmail (trimWs e) = true
  · by_cases hp : p = []
    · subst hp
      simp [handleLogin, handleSignup, hv]
    · by_cases hl : p.length < 6
      · have h6 : ¬ 6 ≤ p.length := by omega
        simp [handleLogin, handleSignup, hv, hp, hl, h6]
      · have h6 : 6 ≤ p.length := by omega
        simp [handleLogin, handleSignup, hv, hp, hl, h6]
  · have hv2 : validateEmail (trimWs e) = false := by
      simpa using hv
    simp [handleLogin, handleSignup, hv2]

/-- Witness for C8 amended: a sign-up with a valid email and the short
password `"abc"` stops before the provider call, leaves the user unchanged
and emits one notification; obtained from `c8_amended_validation` at
concrete inputs. -/
theorem c8_witness :
    (handleSignup ⟨none, []⟩ "user@mail.com".toList "abc".toList).1.currentUser = none ∧
    (∃ m, (handleSignup ⟨none, []⟩ "user@mail.com".toList "abc".toList).1.toasts
      = [] ++ [m]) :=
  have h := c8_amended_validation ⟨none, []⟩ "user@mail.com".toList "abc".toList
  have hn := h.2.2.2.1 (by decide)
  ⟨hn.1, hn.2⟩

/-- Helper: `prefixOf pat s` holds exactly when `s` extends `pat`. -/
theorem prefixOf_iff (pat : List Char) :
    ∀ s, prefixOf pat s = true ↔ ∃ rest, s = pat ++ rest := by
  induction pat with
  | nil =>
    intro s
    simp [prefixOf]
  | cons a as ih =>
    intro s
    cases s with
    | nil => simp [prefixOf]
    | cons b bs =>
      rw [show prefixOf (a :: as) (b :: bs) = (a == b && prefixOf as bs) from rfl,
        Bool.and_eq_true, beq_iff_eq, ih bs]
      constructor
      · rintro ⟨hab, rest, hr⟩
        exact ⟨rest, by rw [hab, hr, List.cons_append]⟩
      · rintro ⟨rest, hr⟩
        injection hr with h1 h2
        exact ⟨h1.symm, rest, h2⟩

/-- Helper: a successful `splitFirst` decomposes the string around the
separator. -/
theorem splitFirst_eq_some (sep : List Char) :
    ∀ s b a, splitFirst sep s = some (b, a) → s = b ++ sep ++ a := by
  intro s
  induction s with
  | nil =>
    intro b a h
    unfold splitFirst at h
    split at h
    · rename_i hpre
      obtain ⟨rest, hr⟩ := (prefixOf_iff sep []).mp hpre
      obtain ⟨hsep, hrest⟩ := List.append_eq_nil.mp hr.symm
      injection h with h1
      injection h1 with hb ha
      simp [← hb, ← ha, hsep]
    · exact absurd h (by simp)
  | cons c cs ih =>
    intro b a h
    unfold splitFirst at h
    split at h
    · rename_i hpre
      obtain ⟨rest, hr⟩ := (prefixOf_iff sep (c :: cs)).mp hpre
      injection h with h1
      injection h1 with hb ha
      rw [← hb, ← ha, hr, List.nil_append, List.drop_left]
    · cases hm : splitFirst sep cs with
      | none => rw [hm] at h; exact absurd h (by simp)
      | some ba =>
        obtain ⟨b2, a2⟩ := ba
        rw [hm] at h
        injection h with h1
        injection h1 with hb ha
        rw [← hb, ← ha, ih b2 a2 hm]
        rfl

/-- Helper: a failed `splitFirst` means the separator occurs nowhere. -/
theorem splitFirst_eq_none (sep : List Char) :
    ∀ s, splitFirst sep s = none → ∀ b a, s ≠ b ++ sep ++ a := by
  intro s
  induction s with
  | nil =>
    intro h b a heq
    unfold splitFirst at h
    split at h
    · exact absurd h (by simp)
    · rename_i hpre
      have h3 : (b ++ sep) ++ a = [] := heq.symm
      have h4 := List.append_eq_nil.mp (List.append_eq_nil.mp h3).1
      exact hpre (by rw [h4.2]; exact (prefixOf_iff [] []).mpr ⟨[], rfl⟩)
  | cons c cs ih =>
    intro h b a heq
    unfold splitFirst at h
    split at h
    · exact absurd h (by simp)
    · rename_i hpre
      cases hm : splitFirst sep cs with
      | some ba => rw [hm] at h; exact absurd h (by simp)
      | none =>
        cases b with
        | nil =>
          rw [List.nil_append] at heq
          exact hpre ((prefixOf_iff sep (c :: cs)).mpr ⟨a, heq⟩)
        | cons d b2 =>
          rw [List.cons_append, List.cons_append] at heq
          injection heq with _ hcs
          exact ih hm b2 a (by rw [hcs])

/-- Helper: `splitFirst` finds the leftmost occurrence of the separator. -/
theorem splitFirst_min (sep : List Char) :
    ∀ s b a, splitFirst sep s = some (b, a) →
      ∀ b2 a2, s = b2 ++ sep ++ a2 → b.length ≤ b2.length := by
  intro s
  induction s with
  | nil =>
    intro b a h b2 a2 _
    unfold splitFirst at h
    split at h
    · injection h with h1
      injection h1 with hb _
      simp [← hb]
    · exact absurd h (by simp)
  | cons c cs ih =>
    intro b a h b2 a2 heq
    unfold splitFirst at h
    split at h
    · injection h with h1
      injection h1 with hb _
      simp [← hb]
    · rename_i hpre
      cases hm : splitFirst sep cs with
      | none => rw [hm] at h; exact absurd h (by simp)
      | some ba =>
        obtain ⟨b3, a3⟩ := ba
        rw [hm] at h
        injection h with h1
        injection h1 with hb _
        cases b2 with
        | nil =>
          rw [List.nil_append] at heq
          exact absurd ((prefixOf_iff sep (c :: cs)).mpr ⟨a2, heq⟩) hpre
        | cons d b4 =>
          rw [List.cons_append, List.cons_append] at heq
          injection heq with _ hcs
          have := ih b3 a3 hm b4 a2 (by rw [hcs])
          rw [← hb]
          simpa using Nat.succ_le_succ this

/-- Helper: `containsSub` holds exactly when the pattern occurs contiguously. -/
theorem containsSub_iff (pat : List Char) :
    ∀ s, containsSub s pat = true ↔ ∃ b a, s = b ++ pat ++ a := by
  intro s
  induction s with
  | nil =>
    rw [show containsSub [] pat = prefixOf pat [] from rfl, prefixOf_iff pat []]
    constructor
    · rintro ⟨rest, hr⟩
      obtain ⟨hsep, hrest⟩ := List.append_eq_nil.mp hr.symm
      exact ⟨[], [], by simp [hsep]⟩
    · rintro ⟨b, a, hba⟩
      have h3 : (b ++ pat) ++ a = [] := hba.symm
      have h4 := List.append_eq_nil.mp (List.append_eq_nil.mp h3).1
      exact ⟨[], by simp [h4.2]⟩
  | cons c t ih =>
    rw [show containsSub (c :: t) pat =
      (prefixOf pat (c :: t) || containsSub t pat) from rfl]
    constructor
    · intro h
      rcases Bool.or_eq_true_iff.mp h with hp | hc
      · obtain ⟨rest, hr⟩ := (prefixOf_iff pat (c :: t)).mp hp
        exact ⟨[], rest, by simpa using hr⟩
      · obtain ⟨b, a, hba⟩ := ih.mp hc
        exact ⟨c :: b, a, by rw [hba]; rfl⟩
    · rintro ⟨b, a, hba⟩
      apply Bool.or_eq_true_iff.mpr
      cases b with
      | nil =>
        rw [List.nil_append] at hba
        exact Or.inl ((prefixOf_iff pat (c :: t)).mpr ⟨a, hba⟩)
      | cons d b2 =>
        rw [List.cons_append, List.cons_append] at hba
        injection hba with _ ht
        exact Or.inr (ih.mpr ⟨b2, a, by rw [ht]⟩)

/-- C9: when the extensionless filename contains `' - '`, the artist is the
cleaned text before the first separator and the display name the cleaned
text after it (with the `'Unknown Track'` fallback on an empty result);
otherwise the artist is `'Unknown Artist'` and the display name the cleaned
extensionless filename, again with the empty-name fallback.  Cleaning
(`cleanup`) replaces underscores by spaces, collapses whitespace runs and
trims the ends, exactly as the source does. -/
theorem c9_filename_heuristics (fn : List Char) :
    (containsSub (stripExt fn) sepDash = true →
      ∃ b a, splitFirst sepDash (stripExt fn) = some (b, a) ∧
        stripExt fn = b ++ sepDash ++ a ∧
        (∀ b2 a2, stripExt fn = b2 ++ sepDash ++ a2 → b.length ≤ b2.length) ∧
        extractArtistName fn = cleanup b ∧
        extractTrackName fn =
          (if cleanup a = [] then "Unknown Track".toList else cleanup a)) ∧
    (containsSub (stripExt fn) sepDash = false →
      extractArtistName fn = "Unknown Artist".toList ∧
      extractTrackName fn =
        (if cleanup (stripExt fn) = [] then "Unknown Track".toList
         else cleanup (stripExt fn))) := by
  constructor
  · intro hc
    obtain ⟨b0, a0, heq⟩ := (containsSub_iff sepDash (stripExt fn)).mp hc
    cases hsf : splitFirst sepDash (stripExt fn) with
    | none => exact absurd heq (splitFirst_eq_none sepDash (stripExt fn) hsf b0 a0)
    | some ba =>
      obtain ⟨b, a⟩ := ba
      refine ⟨b, a, rfl, splitFirst_eq_some sepDash (stripExt fn) b a hsf,
        splitFirst_min sepDash (stripExt fn) b a hsf, ?_, ?_⟩
      · simp only [extractArtistName, hsf]
      · simp only [extractTrackName, hsf]
  · intro hc
    cases hsf : splitFirst sepDash (stripExt fn) with
    | some ba =>
      obtain ⟨b, a⟩ := ba
      have : containsSub (stripExt fn) sepDash = true :=
        (containsSub_iff sepDash (stripExt fn)).mpr
          ⟨b, a, splitFirst_eq_some sepDash (stripExt fn) b a hsf⟩
      rw [this] at hc
      exact absurd hc (by simp)
    | none =>
      constructor
      · simp only [extractArtistName, hsf]
      · simp only [extractTrackName, hsf]

/-- Witness for C9: the filename `'Daft_Punk - One  More_Time.mp3'`, whose
base contains the separator; obtained from `c9_filename_heuristics`. -/
theorem c9_witness :
    ∃ b a, splitFirst sepDash (stripExt "Daft_Punk - One  More_Time.mp3".toList)
        = some (b, a) ∧
      stripExt "Daft_Punk - One  More_Time.mp3".toList = b ++ sepDash ++ a ∧
      (∀ b2 a2, stripExt "Daft_Punk - One  More_Time.mp3".toList
        = b2 ++ sepDash ++ a2 → b.length ≤ b2.length) ∧
      extractArtistName "Daft_Punk - One  More_Time.mp3".toList = cleanup b ∧
      extractTrackName "Daft_Punk - One  More_Time.mp3".toList =
        (if cleanup a = [] then "Unknown Track".toList else cleanup a) :=
  (c9_filename_heuristics "Daft_Punk - One  More_Time.mp3".toList).1 (by decide)

end SoundBound
